import Mathlib

set_option maxRecDepth 8000

/- The Batteries rational arithmetic definitions are irreducible by
default, which blocks `decide`-style evaluation of the embedded filter
on concrete particle data; restore reducibility for them. -/
set_option allowUnsafeReducibility true in
attribute [semireducible] Rat.add Rat.sub Rat.mul Rat.inv

deriving instance DecidableEq for Except

/-!
Verification development for the seaflowpy EVT filtering tool
(source: filterevt.py).  The binary codec, the particle filter, the
log-scale transform, the retrying remote fetch and the batch progress
loop are embedded as executable Lean definitions translated from the
Python source; the theorems below settle the specification claims.

Conventions of the embedding:
* byte strings are `List Nat` together with the hypothesis that every
  entry is below 256;
* machine floats of the filter are modelled by `Rat` (the filter only
  does field arithmetic and comparisons on values derived from 16-bit
  integers); the log transform alone is modelled over `Real`;
* Python `None` is `Option.none`; an exception is the `Except.error`
  branch of the return type.
-/

namespace Seaflow

/-! ## Binary codec (EVT.read_evt / EVT.write_opp_binary) -/

/-- Decode a little-endian unsigned 16-bit value from two bytes,
as `np.fromstring(..., dtype="uint16")` does. -/
def leU16 (b0 b1 : ℕ) : ℕ := b0 + 256 * b1

/-- Encode a value as two little-endian bytes, truncating to 16 bits,
as `astype(np.uint16).tofile` does. -/
def leU16enc (v : ℕ) : List ℕ := [v % 256, v / 256 % 256]

/-- Decode the little-endian unsigned 32-bit particle-count header from
the first four bytes of a file, as `np.fromstring(buff, dtype="uint32")`. -/
def le32 (b : List ℕ) : ℕ :=
  b.getD 0 0 + 256 * b.getD 1 0 + 256 ^ 2 * b.getD 2 0 + 256 ^ 3 * b.getD 3 0

/-- Encode a value as four little-endian bytes, truncating to 32 bits,
as `np.array([oppcnt], np.uint32).tofile` does. -/
def le32enc (v : ℕ) : List ℕ :=
  [v % 256, v / 256 % 256, v / 256 ^ 2 % 256, v / 256 ^ 3 % 256]

/-- Group a byte string into consecutive little-endian unsigned 16-bit
values (a trailing odd byte is dropped, which never happens on the
lengths `read_evt` feeds in). -/
def parseU16s : List ℕ → List ℕ
  | b0 :: b1 :: rest => leU16 b0 b1 :: parseU16s rest
  | _ => []

/-- Parse `n` particle rows of 12 uint16 values (24 bytes) each,
dropping the first two padding values of every row, exactly as
`np.reshape(particles, [rowcnt, 12])` followed by
`np.delete(particles, [0, 1], 1)` does. -/
def parseRows : ℕ → List ℕ → List (List ℕ)
  | 0, _ => []
  | n + 1, bs => (parseU16s (bs.take 24)).drop 2 :: parseRows n (bs.drop 24)

/-- `EVT.read_evt`: decode an EVT byte string into the particle-count
header and the rows of 10 channel values.  Mirrors the Python code:
`fh.read(4)` is `take 4`, and `fh.read(expected_bytes)` is modelled by
`take expected_bytes` of the remaining bytes, since a Python file read
returns at most the requested number of bytes. -/
def read_evt (x : List ℕ) : Except String (ℕ × List (List ℕ)) :=
  let buff := x.take 4
  if buff.length = 0 then
    .error ("File is empty")
  else if buff.length ≠ 4 then
    .error ("File has invalid particle count header")
  else
    let rowcnt := le32 buff
    if rowcnt = 0 then
      .error ("File has no particle data")
    else
      let expected_bytes := rowcnt * 12 * 2
      let body := (x.drop 4).take expected_bytes
      if body.length ≠ expected_bytes then
        .error ("File has incorrect number of data bytes. Expected " ++
          toString expected_bytes ++ ", saw " ++ toString body.length)
      else
        .ok (rowcnt, parseRows rowcnt body)

/-- `EVT.write_opp_binary` composed with `EVT.create_opp_for_binary`:
emit a 4-byte unsigned count header equal to the number of retained
rows, then for every retained row, in order, the two LabVIEW padding
words 10 and 0 followed by the 10 channel values as little-endian
unsigned 16-bit integers. -/
def write_opp_binary (opp : List (List ℕ)) : List ℕ :=
  le32enc opp.length ++
    opp.flatMap (fun r => leU16enc 10 ++ leU16enc 0 ++ r.flatMap leU16enc)

/-! ## Filter engine (EVT.filter) -/

/-- One decoded particle: the 10 named channels of a row, as the
float64 values `read_evt` widens them to (modelled by `Rat`). -/
structure Particle where
  time : ℚ
  pulse_width : ℚ
  D1 : ℚ
  D2 : ℚ
  fsc_small : ℚ
  fsc_perp : ℚ
  fsc_big : ℚ
  pe : ℚ
  chl_small : ℚ
  chl_big : ℚ
deriving DecidableEq

/-- Insert into a sorted list (ascending). -/
def insertSorted (x : ℚ) : List ℚ → List ℚ
  | [] => [x]
  | y :: ys => if x ≤ y then x :: y :: ys else y :: insertSorted x ys

/-- Insertion sort, ascending. -/
def sortQ (l : List ℚ) : List ℚ := l.foldr insertSorted []

/-- `pandas.Series.median`: middle element of the sorted values for an
odd count, mean of the two middle elements for an even count (0 for the
empty list, a case the filter never reaches). -/
def medianQ (l : List ℚ) : ℚ :=
  let s := sortQ l
  let n := s.length
  if n = 0 then 0
  else if n % 2 = 1 then s.getD (n / 2) 0
  else (s.getD (n / 2 - 1) 0 + s.getD (n / 2) 0) / 2

/-- Maximum of a list of rationals (`Series.max`); `none` models the
NaN produced on an empty series. -/
def qmax : List ℚ → Option ℚ
  | [] => none
  | x :: xs => some (match qmax xs with | none => x | some m => max x m)

/-- Minimum of a list of rationals (`Series.min`); `none` models the
NaN produced on an empty series. -/
def qmin : List ℚ → Option ℚ
  | [] => none
  | x :: xs => some (match qmin xs with | none => x | some m => min x m)

/-- The state of an `EVT` object that the filter reads and writes:
the decoded matrix (`none` when no data was read), the counts, the
ratio and the recorded effective filter parameters.  `__init__` puts
every parameter to `None` before `filter()` runs. -/
structure EVTState where
  evt : Option (List Particle)
  evtcnt : ℕ
  opp : Option (List Particle)
  oppcnt : ℕ
  opp_evt_ratio : ℚ
  notch1 : Option ℚ
  notch2 : Option ℚ
  offset : Option ℚ
  origin : Option ℚ
  width : Option ℚ
deriving DecidableEq

/-- The `EVT` object right after a successful `read_evt`: the matrix is
set, `evtcnt` is its length, counts and ratio are zero and every filter
parameter is `None`. -/
def initEVT (m : List Particle) : EVTState :=
  { evt := some m, evtcnt := m.length, opp := none, oppcnt := 0,
    opp_evt_ratio := 0, notch1 := none, notch2 := none, offset := none,
    origin := none, width := none }

/-- The candidate test of the filter: `self.evt["fsc_small"] > 1`. -/
def candidate (p : Particle) : Bool := decide (1 < p.fsc_small)

/-- The alignment test: `(D1 + origin) < (D2 + width * 10**4)` and
`D2 < (D1 + origin + width * 10**4)`. -/
def alignedTest (origin width : ℚ) (p : Particle) : Bool :=
  decide (p.D1 + origin < p.D2 + width * 10 ^ 4) &&
    decide (p.D2 < p.D1 + origin + width * 10 ^ 4)

/-- Derive a notch from the aligned rows and one alignment channel `d`
(`D1` for notch1, `D2` for notch2): among rows at the maximal
`fsc_small` take the minimal `d` value, among rows at that `d` value
take the maximal `fsc_small`, and divide by the minimum plus 10000.
`none` models the NaN that the pandas reductions produce when the
aligned set is empty. -/
def deriveNotch (aligned : List Particle) (d : Particle → ℚ) : Option ℚ :=
  match qmax (aligned.map (fun p => p.fsc_small)) with
  | none => none
  | some fsc_small_max =>
    match qmin ((aligned.filter
        (fun p => decide (p.fsc_small = fsc_small_max))).map d) with
    | none => none
    | some mn =>
      match qmax ((aligned.filter
          (fun p => decide (d p = mn))).map (fun p => p.fsc_small)) with
      | none => none
      | some mx => some (mx / (mn + 10000))

/-- The focus test: `fsc_small > ((D1 * notch1) - (offset * 10**4))` and
the same with `D2`/`notch2`.  A `none` notch models NaN, against which
every numpy comparison is false. -/
def focusTest (notch1v notch2v : Option ℚ) (offsetv : ℚ) (p : Particle) :
    Bool :=
  match notch1v, notch2v with
  | some n1, some n2 =>
    decide (p.D1 * n1 - offsetv * 10 ^ 4 < p.fsc_small) &&
      decide (p.D2 * n2 - offsetv * 10 ^ 4 < p.fsc_small)
  | _, _ => false

/-- `EVT.filter`: translated clause by clause from the Python method.
Returns `Except.error` for the `ValueError` raised on a missing `width`
or `offset`, and otherwise the updated object state. -/
def EVT.filter (st : EVTState) (notch1 notch2 offset origin width : Option ℚ) :
    Except String EVTState :=
  if st.evt.isNone || st.evtcnt = 0 then .ok st
  else if width.isNone || offset.isNone then
    .error ("Must supply width and offset to EVT.filter()")
  else
    let evt := st.evt.getD []
    let offsetv := offset.getD 0
    let widthv := width.getD 0
    -- Correction for the difference in sensitivity between D1 and D2:
    -- computed over the whole matrix, before the candidate cut below.
    let originv := origin.getD (medianQ (evt.map (fun p => p.D2 - p.D1)))
    -- Only keep particles detected by fsc_small
    let cands := evt.filter candidate
    -- Filter aligned particles (D1 = D2)
    let aligned := cands.filter (alignedTest originv widthv)
    let notch1v := match notch1 with
      | some n => some n
      | none => deriveNotch aligned (fun p => p.D1)
    let notch2v := match notch2 with
      | some n => some n
      | none => deriveNotch aligned (fun p => p.D2)
    -- Filter focused particles (fsc_small > D + notch)
    let opp := aligned.filter (focusTest notch1v notch2v offsetv)
    .ok { st with
      opp := some opp,
      oppcnt := opp.length,
      opp_evt_ratio := if st.evtcnt = 0 then 0 else (opp.length : ℚ) / st.evtcnt,
      notch1 := notch1v,
      notch2 := notch2v,
      offset := some offsetv,
      origin := some originv,
      width := some widthv }

/-- The `origin` recorded by a filter run, `none` on the error branch
or when the run left it unset. -/
def originOf (e : Except String EVTState) : Option ℚ :=
  match e with
  | .ok st => st.origin
  | .error _ => none

/-! ## Remote fetch with retry (download_s3_file_memory) -/

/-- The retry loop of `download_s3_file_memory`.  `attempt k` is the
outcome of the (k+1)-st call of the S3 request body (indexed by the
value of the `tries` counter when the call is made), `jitter k` the
`random.random()` value drawn after the failure that raised `tries` to
`k + 1`.  `fuel` bounds the recursion; the wrapper below passes
`retries`, which the exit test `tries + 1 = retries` never lets run
out.  Returns the result, the number of attempts made and the list of
sleep durations performed, in order. -/
def fetchAux {ε α : Type} (attempt : ℕ → Except ε α) (jitter : ℕ → ℚ)
    (retries : ℕ) : ℕ → ℕ → Except ε α × ℕ × List ℚ
  | tries, fuel =>
    match attempt tries with
    | .ok a => (.ok a, 1, [])
    | .error e =>
      if tries + 1 = retries then (.error e, 1, [])
      else
        match fuel with
        | 0 => (.error e, 1, [])
        | fuel' + 1 =>
          let rest := fetchAux attempt jitter retries (tries + 1) fuel'
          (rest.1, rest.2.1 + 1, ((2 : ℚ) ^ tries + jitter tries) :: rest.2.2)

/-- `download_s3_file_memory(key_str, retries=5)`: run the retry loop
starting from `tries = 0`; every caller uses the default of 5 retries. -/
def download_s3_file_memory {ε α : Type} (attempt : ℕ → Except ε α)
    (jitter : ℕ → ℚ) (retries : ℕ) : Except ε α × ℕ × List ℚ :=
  fetchAux attempt jitter retries 0 retries

/-! ## Batch progress accounting (filter_files) -/

/-- The per-file result record a worker returns to the orchestrator. -/
structure Res where
  ok : Bool
  evtcnt : ℕ
  oppcnt : ℕ
deriving DecidableEq

/-- The orchestrator's loop state: the last progress milestone, the
running totals, the per-block counters and the number of block reports
printed so far. -/
structure ProgState where
  last : ℚ
  evtcnt : ℕ
  oppcnt : ℕ
  evtcnt_block : ℕ
  oppcnt_block : ℕ
  files_ok : ℕ
  reports : ℕ
deriving DecidableEq

/-- Initial loop state of `filter_files`. -/
def initProg : ProgState :=
  { last := 0, evtcnt := 0, oppcnt := 0, evtcnt_block := 0,
    oppcnt_block := 0, files_ok := 0, reports := 0 }

/-- Completion percentage after the (i+1)-st completion out of `n`:
`float(i + 1) / len(files) * 100`. -/
def perc (n i : ℕ) : ℚ := ((i : ℚ) + 1) / n * 100

/-- The milestone `int(perc / every) * every`: `perc` rounded down to
the closest multiple of `every`. -/
def milestone (every p : ℚ) : ℚ := (⌊p / every⌋ : ℚ) * every

/-- One iteration of the `imap_unordered` consumption loop of
`filter_files`: accumulate the block counters, and when the milestone
strictly exceeds the last one, fold the block into the totals, emit a
block report, record the milestone and reset the block counters. -/
def progressStep (n : ℕ) (every : ℚ) (st : ProgState) (i : ℕ) (r : Res) :
    ProgState :=
  let evtb := st.evtcnt_block + r.evtcnt
  let oppb := st.oppcnt_block + r.oppcnt
  let fok := st.files_ok + (if r.ok then 1 else 0)
  let m := milestone every (perc n i)
  if st.last < m then
    { last := m, evtcnt := st.evtcnt + evtb, oppcnt := st.oppcnt + oppb,
      evtcnt_block := 0, oppcnt_block := 0, files_ok := fok,
      reports := st.reports + 1 }
  else
    { st with evtcnt_block := evtb, oppcnt_block := oppb, files_ok := fok }

/-- Run the consumption loop over the completion-ordered results,
starting at index `i`. -/
def runProgressAux (n : ℕ) (every : ℚ) : ProgState → ℕ → List Res → ProgState
  | st, _, [] => st
  | st, i, r :: rest =>
    runProgressAux n every (progressStep n every st i r) (i + 1) rest

/-- The progress accounting of `filter_files` over a batch of results:
run the loop, then fold any non-empty trailing block into the totals
(the trailing flush prints no block report; the final summary report is
always printed afterwards). -/
def filter_files (every : ℚ) (results : List Res) : ProgState :=
  let st := runProgressAux results.length every initProg 0 results
  if 0 < st.evtcnt_block then
    { st with
        evtcnt := st.evtcnt + st.evtcnt_block,
        oppcnt := st.oppcnt + st.oppcnt_block }
  else st

/-! ## Worker boundary (filter_one_file / do_work) -/

/-- A Python exception as the worker sees it. -/
inductive PyErr where
  | evtFileError (msg : String)
  | keyboardInterrupt
  | other (msg : String)
deriving DecidableEq

/-- The record `filter_one_file` builds and returns. -/
structure WorkResult where
  ok : Bool
  evtcnt : ℕ
  oppcnt : ℕ
  path : String
deriving DecidableEq

/-- One file job as the worker runs it; each pipeline stage is
abstracted to its outcome (the stages themselves are embedded above as
`read_evt`, `EVT.filter` and `download_s3_file_memory`).  The decode
outcome covers the whole `EVT(...)` construction; the filter outcome
carries the `(evtcnt, oppcnt)` pair read off the object on success. -/
structure JobSpec where
  path : String
  s3 : Bool
  useDb : Bool
  useBinaryDir : Bool
  fetchRes : Except PyErr Unit
  decodeRes : Except PyErr Unit
  filterRes : Except PyErr (ℕ × ℕ)
  dbRes : Except PyErr Unit
  binRes : Except PyErr Unit

/-- `filter_one_file`, translated control-flow-faithfully: the S3 fetch
runs before the `try` block, so its exception propagates; the `try`
wraps only the `EVT(...)` construction and its two handlers
(`except EVTFileError` and the bare `except`) catch every decode
exception, leaving `result["ok"]` false; the `else` branch runs the
filter and the sinks unprotected, so their exceptions propagate. -/
def filter_one_file (j : JobSpec) : Except PyErr WorkResult :=
  match (if j.s3 then j.fetchRes else .ok ()) with
  | .error e => .error e
  | .ok _ =>
    match j.decodeRes with
    | .error _ => .ok { ok := false, evtcnt := 0, oppcnt := 0, path := j.path }
    | .ok _ =>
      match j.filterRes with
      | .error e => .error e
      | .ok (ecnt, ocnt) =>
        match (if j.useDb then j.dbRes else .ok ()) with
        | .error e => .error e
        | .ok _ =>
          match (if j.useBinaryDir then j.binRes else .ok ()) with
          | .error e => .error e
          | .ok _ =>
            .ok { ok := true, evtcnt := ecnt, oppcnt := ocnt, path := j.path }

/-- `do_work`, the pool worker wrapper: it catches only
`KeyboardInterrupt` (returning `None`); every other exception escaping
`filter_one_file` propagates out of the worker. -/
def do_work (j : JobSpec) : Except PyErr (Option WorkResult) :=
  match filter_one_file j with
  | .ok r => .ok (some r)
  | .error .keyboardInterrupt => .ok none
  | .error e => .error e

/-! ## Log transform (EVT.transform) -/

/-- `EVT.transform`: `10**((vals / 2**16) * 3.5)`, the float arithmetic
modelled over the reals. -/
noncomputable def transform (v : ℝ) : ℝ := (10 : ℝ) ^ ((v / 2 ^ 16) * 3.5)

/-! ## Concrete fixtures used by the witnesses and counterexamples -/

/-- A particle with the given `D1`, `D2` and `fsc_small` values and all
other channels zero. -/
def mkP (d1 d2 fsc : ℚ) : Particle :=
  { time := 0, pulse_width := 0, D1 := d1, D2 := d2, fsc_small := fsc,
    fsc_perp := 0, fsc_big := 0, pe := 0, chl_small := 0, chl_big := 0 }

/-- Two particles: one candidate (`fsc_small = 5`) with `D2 - D1 = 0`,
and one non-candidate (`fsc_small = 0`) with `D2 - D1 = 100`.  The
median of `D2 - D1` over all rows is 50, over the candidate rows 0. -/
def mC1 : List Particle := [mkP 0 0 5, mkP 0 100 0]

/-- A single well-aligned candidate particle. -/
def mW1 : List Particle := [mkP 0 0 5]

/-- The state `EVT.filter` computes on `initEVT mW1` with
`notch1 = notch2 = 1`, `offset = 0`, `origin` auto and `width = 1`. -/
def resW1 : EVTState :=
  { evt := some mW1, evtcnt := 1, opp := some mW1, oppcnt := 1,
    opp_evt_ratio := 1, notch1 := some 1, notch2 := some 1,
    offset := some 0, origin := some 0, width := some 1 }

/-- A decodable byte string whose single row carries the padding words
(0, 0) instead of the canonical (10, 0). -/
def xC3 : List ℕ := le32enc 1 ++ List.replicate 24 0

/-- A byte string with header count 1 but 25 body bytes: one byte more
than the expected 24. -/
def xC4 : List ℕ := le32enc 1 ++ List.replicate 25 0

/-- A worker result with 100 particles, 50 of them retained. -/
def r1 : Res := { ok := true, evtcnt := 100, oppcnt := 50 }

/-- An attempt sequence that fails four times and succeeds on the
fifth call. -/
def attW : ℕ → Except String ℕ :=
  fun k => if k < 4 then .error ("e") else .ok 7

/-- A zero jitter source. -/
def jW : ℕ → ℚ := fun _ => 0

/-- A remote job whose fetch raises a non-EVTFileError exception. -/
def jBad : JobSpec :=
  { path := "s3file", s3 := true, useDb := true, useBinaryDir := false,
    fetchRes := .error (.other ("connection")), decodeRes := .ok (),
    filterRes := .ok (1, 1), dbRes := .ok (), binRes := .ok () }

/-- A local job whose decode raises an EVTFileError. -/
def jW2 : JobSpec :=
  { path := "bad.evt", s3 := false, useDb := false, useBinaryDir := false,
    fetchRes := .ok (), decodeRes := .error (.evtFileError ("File is empty")),
    filterRes := .ok (0, 0), dbRes := .ok (), binRes := .ok () }

/-- A canonical one-row EVT byte string: header count 1, padding words
(10, 0), and ten channel values all equal to 7. -/
def xW3 : List ℕ :=
  [1, 0, 0, 0, 10, 0, 0, 0, 7, 0, 7, 0, 7, 0, 7, 0, 7, 0, 7, 0, 7, 0,
   7, 0, 7, 0, 7, 0]

/-- A byte string with header count 3 but body bytes for only 2 rows. -/
def xW4 : List ℕ := le32enc 3 ++ List.replicate 48 0

/-! ## Theorems -/

/-- C10: for every EVT object whose matrix is absent or has zero rows,
`filter` returns normally regardless of whether `width` and `offset`
are supplied — the width/offset presence check is evaluated only when
at least one particle row exists — and in that case all effective
filter parameters (notch1, notch2, offset, origin, width) remain unset
on the result. -/
theorem filter_empty_matrix_noop (st : EVTState) (n1 n2 off og w : Option ℚ)
    (h : st.evt = none ∨ st.evtcnt = 0)
    (hfresh : st.notch1 = none ∧ st.notch2 = none ∧ st.offset = none ∧
      st.origin = none ∧ st.width = none) :
    EVT.filter st n1 n2 off og w = .ok st ∧ st.notch1 = none ∧
      st.notch2 = none ∧ st.offset = none ∧ st.origin = none ∧
      st.width = none := by
  refine ⟨?_, hfresh.1, hfresh.2.1, hfresh.2.2.1, hfresh.2.2.2.1,
    hfresh.2.2.2.2⟩
  rcases h with h | h <;> simp [EVT.filter, h]

/-- Witness for C10: an `EVT` object over an empty matrix, filtered
with `width` and `offset` both missing, returns normally with every
parameter unset. -/
theorem filter_empty_matrix_noop_witness :
    EVT.filter (initEVT []) none none none none none = .ok (initEVT []) ∧
      (initEVT []).notch1 = none ∧ (initEVT []).notch2 = none ∧
      (initEVT []).offset = none ∧ (initEVT []).origin = none ∧
      (initEVT []).width = none :=
  filter_empty_matrix_noop (initEVT []) none none none none none
    (Or.inr rfl) ⟨rfl, rfl, rfl, rfl, rfl⟩

/-- C8 counterexample: a call to `filter` with `width` and `offset`
both missing that does not fail — the empty-matrix early return fires
before the parameter check. -/
theorem filter_missing_params_no_error_cex :
    EVT.filter (initEVT []) none none none none none = .ok (initEVT []) ∧
      (EVT.filter (initEVT []) none none none none none).isOk = true := by
  exact ⟨rfl, rfl⟩

/-- C8 amended: for every call to `filter` on an object holding at
least one particle row, a missing `width` or a missing `offset` fails
with the ConfigError (`ValueError`) and performs no filtering. -/
theorem filter_missing_params_error (st : EVTState) (m : List Particle)
    (n1 n2 off og w : Option ℚ) (hm : st.evt = some m) (hcnt : st.evtcnt ≠ 0)
    (h : w = none ∨ off = none) :
    EVT.filter st n1 n2 off og w =
      .error ("Must supply width and offset to EVT.filter()") := by
  rcases h with h | h <;> subst h <;> simp [EVT.filter, hm, hcnt]

/-- Witness for C8 amended: a one-particle object filtered with a
missing `width` raises the ValueError. -/
theorem filter_missing_params_error_witness :
    EVT.filter (initEVT mW1) none none (some 0) none none =
      .error ("Must supply width and offset to EVT.filter()") :=
  filter_missing_params_error (initEVT mW1) mW1 none none (some 0) none none
    rfl (by decide) (Or.inl rfl)

/-- C1 counterexample: on `mC1` the recorded auto-computed origin is 50,
the median of `D2 - D1` over all rows, while the median over the
candidate rows (`fsc_small > 1`) is 0 — the claim's formula disagrees
with the code. -/
theorem filter_origin_cex :
    originOf (EVT.filter (initEVT mC1) (some 1) (some 1) (some 0) none
        (some 1)) = some 50 ∧
      medianQ ((mC1.filter candidate).map (fun p => p.D2 - p.D1)) = 0 ∧
      originOf (EVT.filter (initEVT mC1) (some 1) (some 1) (some 0) none
        (some 1)) ≠
        some (medianQ ((mC1.filter candidate).map (fun p => p.D2 - p.D1))) := by
  decide

/-- C1 amended: when `filter` is called without an explicit origin on a
non-empty matrix and returns, the effective origin used and recorded is
the median of `D2 - D1` over ALL decoded rows (the candidate cut
`fsc_small > 1` happens only after the origin computation). -/
theorem filter_origin_median_all_rows (m : List Particle)
    (n1 n2 off w : Option ℚ) (st' : EVTState)
    (h : EVT.filter (initEVT m) n1 n2 off none w = .ok st') (hm : m ≠ []) :
    st'.origin = some (medianQ (m.map (fun p => p.D2 - p.D1))) := by
  simp only [EVT.filter] at h
  split at h
  · next hc =>
      exfalso
      simp [initEVT] at hc
      exact hm hc
  · split at h
    · exact absurd h (by simp)
    · injection h with h'
      rw [← h']
      simp [initEVT]

/-- Witness for C1 amended: the origin recorded on `mW1` equals the
median of `D2 - D1` over all of `mW1`. -/
theorem filter_origin_median_all_rows_witness :
    resW1.origin = some (medianQ (mW1.map (fun p => p.D2 - p.D1))) :=
  filter_origin_median_all_rows mW1 (some 1) (some 1) (some 0) (some 1)
    resW1 (by decide) (by decide)

/-- C7: for every input matrix and every parameter choice accepted by
`filter`, the result satisfies `0 ≤ oppcnt ≤ evtcnt` and
`0 ≤ opp_evt_ratio ≤ 1`, and the ratio is 0 whenever `evtcnt` is 0. -/
theorem filter_count_ratio_invariants (m : List Particle)
    (n1 n2 off og w : Option ℚ) (st' : EVTState)
    (h : EVT.filter (initEVT m) n1 n2 off og w = .ok st') :
    st'.oppcnt ≤ st'.evtcnt ∧ 0 ≤ st'.opp_evt_ratio ∧
      st'.opp_evt_ratio ≤ 1 ∧ (st'.evtcnt = 0 → st'.opp_evt_ratio = 0) := by
  simp only [EVT.filter] at h
  split at h
  · injection h with h'
    subst h'
    simp [initEVT]
  · split at h
    · exact absurd h (by simp)
    · injection h with h'
      subst h'
      simp only [initEVT, Option.getD_some]
      refine ⟨?_, ?_, ?_, ?_⟩
      · exact le_trans (List.length_filter_le _ _)
          (le_trans (List.length_filter_le _ _) (List.length_filter_le _ _))
      · split
        · exact le_refl 0
        · positivity
      · split
        · exact zero_le_one
        · apply div_le_one_of_le₀
          · exact_mod_cast le_trans (List.length_filter_le _ _)
              (le_trans (List.length_filter_le _ _)
                (List.length_filter_le _ _))
          · positivity
      · intro he
        rw [if_pos he]

/-- Witness for C7: the invariants hold on the one-particle run that
retains its particle. -/
theorem filter_count_ratio_invariants_witness :
    resW1.oppcnt ≤ resW1.evtcnt ∧ 0 ≤ resW1.opp_evt_ratio ∧
      resW1.opp_evt_ratio ≤ 1 ∧ (resW1.evtcnt = 0 → resW1.opp_evt_ratio = 0) :=
  filter_count_ratio_invariants mW1 (some 1) (some 1) (some 0) none (some 1)
    resW1 (by decide)

/-- C2 counterexample: a remote job whose fetch fails escapes the
worker as an exception rather than being returned as a failed-unit
result — the S3 download runs before the worker's try block, so its
failure aborts the batch. -/
theorem do_work_fetch_error_cex :
    do_work jBad = .error (PyErr.other ("connection")) ∧
      (do_work jBad).isOk = false :=
  ⟨rfl, rfl⟩

/-- C2 amended: only failures raised while constructing the `EVT`
object (decode) are caught at the worker boundary — any decode
exception, `EVTFileError` or not, yields a normally returned
failed-unit result, provided the fetch stage did not itself raise. -/
theorem do_work_catches_decode_errors (j : JobSpec) (e : PyErr)
    (hfetch : j.s3 = false ∨ j.fetchRes = .ok ())
    (hdec : j.decodeRes = .error e) :
    do_work j =
      .ok (some { ok := false, evtcnt := 0, oppcnt := 0, path := j.path }) := by
  rcases hfetch with hf | hf <;> simp [do_work, filter_one_file, hf, hdec]

/-- Witness for C2 amended: a local job whose decode raises an
`EVTFileError` comes back as a failed unit. -/
theorem do_work_catches_decode_errors_witness :
    do_work jW2 =
      .ok (some { ok := false, evtcnt := 0, oppcnt := 0, path := "bad.evt" }) :=
  do_work_catches_decode_errors jW2 (.evtFileError ("File is empty"))
    (Or.inl rfl) rfl

/-- Helper: an attempt that succeeds returns immediately with one call
and no sleeps, whatever the remaining fuel. -/
theorem fetchAux_success {ε α : Type} (attempt : ℕ → Except ε α)
    (jitter : ℕ → ℚ) (retries t fuel : ℕ) (x : α) (h : attempt t = .ok x) :
    fetchAux attempt jitter retries t fuel = (.ok x, 1, []) := by
  rw [fetchAux, h]

/-- Helper: a failing attempt that exhausts the retry budget raises
with no further sleep. -/
theorem fetchAux_last_failure {ε α : Type} (attempt : ℕ → Except ε α)
    (jitter : ℕ → ℚ) (retries t fuel : ℕ) (x : ε)
    (h : attempt t = .error x) (hl : t + 1 = retries) :
    fetchAux attempt jitter retries t fuel = (.error x, 1, []) := by
  rw [fetchAux, h]
  simp [hl]

/-- Helper: a failing attempt below the retry budget sleeps
`2 ^ tries + jitter` and continues with the next attempt. -/
theorem fetchAux_failure_step {ε α : Type} (attempt : ℕ → Except ε α)
    (jitter : ℕ → ℚ) (retries t fuel' : ℕ) (x : ε)
    (h : attempt t = .error x) (hne : t + 1 ≠ retries) :
    fetchAux attempt jitter retries t (fuel' + 1) =
      ((fetchAux attempt jitter retries (t + 1) fuel').1,
       (fetchAux attempt jitter retries (t + 1) fuel').2.1 + 1,
       ((2 : ℚ) ^ t + jitter t) ::
         (fetchAux attempt jitter retries (t + 1) fuel').2.2) := by
  conv_lhs => rw [fetchAux, h]
  simp [hne]

/-- Helper: starting below the retry budget, the loop makes at most
`retries - tries` further attempt calls. -/
theorem fetchAux_calls_le {ε α : Type} (attempt : ℕ → Except ε α)
    (jitter : ℕ → ℚ) (retries : ℕ) :
    ∀ fuel t, t < retries →
      (fetchAux attempt jitter retries t fuel).2.1 ≤ retries - t := by
  intro fuel
  induction fuel with
  | zero =>
    intro t ht
    cases hA : attempt t with
    | ok x =>
      rw [fetchAux_success attempt jitter retries t 0 x hA]
      show 1 ≤ retries - t
      omega
    | error x =>
      rw [fetchAux, hA]
      have h1 : 1 ≤ retries - t := by omega
      by_cases hl : t + 1 = retries
      · simpa [hl] using h1
      · simpa [hl] using h1
  | succ fuel ih =>
    intro t ht
    cases hA : attempt t with
    | ok x =>
      rw [fetchAux_success attempt jitter retries t (fuel + 1) x hA]
      show 1 ≤ retries - t
      omega
    | error x =>
      by_cases hl : t + 1 = retries
      · rw [fetchAux_last_failure attempt jitter retries t (fuel + 1) x hA hl]
        show 1 ≤ retries - t
        omega
      · rw [fetchAux_failure_step attempt jitter retries t fuel x hA hl]
        show (fetchAux attempt jitter retries (t + 1) fuel).2.1 + 1 ≤
          retries - t
        have := ih (t + 1) (by omega)
        omega

/-- C5: the remote fetch makes at most 5 attempts total; a success is
returned immediately (so failing four times and succeeding on attempt
5 yields the success after exactly 5 calls); if all 5 attempts fail the
5th failure is propagated with no 6th attempt; and before attempt k+1
the worker sleeps `2^(k-1)` plus the drawn jitter. -/
theorem fetch_retry_spec {ε α : Type} (attempt : ℕ → Except ε α)
    (jitter : ℕ → ℚ) (es : ℕ → ε) :
    ((∀ k, k < 4 → attempt k = .error (es k)) → ∀ x, attempt 4 = .ok x →
      download_s3_file_memory attempt jitter 5 =
        (.ok x, 5, [2 ^ 0 + jitter 0, 2 ^ 1 + jitter 1, 2 ^ 2 + jitter 2,
          2 ^ 3 + jitter 3])) ∧
    ((∀ k, k < 5 → attempt k = .error (es k)) →
      download_s3_file_memory attempt jitter 5 =
        (.error (es 4), 5, [2 ^ 0 + jitter 0, 2 ^ 1 + jitter 1,
          2 ^ 2 + jitter 2, 2 ^ 3 + jitter 3])) ∧
    (∀ t fuel x, attempt t = .ok x →
      fetchAux attempt jitter 5 t fuel = (.ok x, 1, [])) ∧
    (download_s3_file_memory attempt jitter 5).2.1 ≤ 5 := by
  refine ⟨?_, ?_, ?_, ?_⟩
  · intro hfail x hok
    have h0 := hfail 0 (by omega)
    have h1 := hfail 1 (by omega)
    have h2 := hfail 2 (by omega)
    have h3 := hfail 3 (by omega)
    simp [download_s3_file_memory, fetchAux, h0, h1, h2, h3, hok]
  · intro hfail
    have h0 := hfail 0 (by omega)
    have h1 := hfail 1 (by omega)
    have h2 := hfail 2 (by omega)
    have h3 := hfail 3 (by omega)
    have h4 := hfail 4 (by omega)
    simp [download_s3_file_memory, fetchAux, h0, h1, h2, h3, h4]
  · exact fun t fuel x h => fetchAux_success attempt jitter 5 t fuel x h
  · have := fetchAux_calls_le attempt jitter 5 5 0 (by omega)
    simpa [download_s3_file_memory] using this

/-- Witness for C5: the concrete attempt sequence failing 4 times and
succeeding on the 5th call returns the success after exactly 5 calls,
with sleeps 1, 2, 4, 8. -/
theorem fetch_retry_spec_witness :
    download_s3_file_memory attW jW 5 =
      (.ok 7, 5, [2 ^ 0 + jW 0, 2 ^ 1 + jW 1, 2 ^ 2 + jW 2, 2 ^ 3 + jW 3]) :=
  (fetch_retry_spec attW jW (fun _ => "e")).1 (by decide) 7 (by decide)

/-- C6: with the last milestone recorded for a previous completion
percentage `q`, a block report is emitted after a completion exactly
when `floor(p/R)` strictly exceeds `floor(q/R)` (never duplicated);
emitting resets the block counters and records the new milestone; and
the concrete batches `N = 10, R = 10` and `N = 3, R = 50` produce
exactly 10 and 2 block reports (the final summary report is printed
unconditionally after the loop and is not counted here). -/
theorem progress_block_reports (n : ℕ) (R q : ℚ) (hR : 0 < R)
    (st : ProgState) (i : ℕ) (r : Res) (hlast : st.last = milestone R q) :
    ((progressStep n R st i r).reports = st.reports + 1 ↔
      ⌊q / R⌋ < ⌊perc n i / R⌋) ∧
    (⌊q / R⌋ < ⌊perc n i / R⌋ →
      (progressStep n R st i r).last = milestone R (perc n i) ∧
      (progressStep n R st i r).evtcnt_block = 0 ∧
      (progressStep n R st i r).oppcnt_block = 0) ∧
    (¬⌊q / R⌋ < ⌊perc n i / R⌋ →
      (progressStep n R st i r).reports = st.reports) ∧
    (filter_files 10 (List.replicate 10 r1)).reports = 10 ∧
    (filter_files 50 (List.replicate 3 r1)).reports = 2 := by
  have hiff : st.last < milestone R (perc n i) ↔
      ⌊q / R⌋ < ⌊perc n i / R⌋ := by
    rw [hlast]
    unfold milestone
    rw [mul_lt_mul_right hR, Int.cast_lt]
  refine ⟨?_, ?_, ?_, by decide, by decide⟩
  · by_cases hc : st.last < milestone R (perc n i)
    · simp only [progressStep]
      rw [if_pos hc]
      simpa using hiff.mp hc
    · simp only [progressStep]
      rw [if_neg hc]
      exact iff_of_false (by simp) (fun hx => hc (hiff.mpr hx))
  · intro hx
    have hc := hiff.mpr hx
    simp only [progressStep]
    rw [if_pos hc]
    exact ⟨rfl, rfl, rfl⟩
  · intro hx
    have hc : ¬st.last < milestone R (perc n i) := fun hcc => hx (hiff.mp hcc)
    simp only [progressStep]
    rw [if_neg hc]

/-- Witness for C6: second completion of a 3-file batch at resolution
50, starting from the initial 0 milestone: the 66.7% completion crosses
the 50% multiple, so a block report is emitted. -/
theorem progress_block_reports_witness :
    (progressStep 3 50 initProg 1 r1).reports = initProg.reports + 1 ↔
      ⌊(0 : ℚ) / 50⌋ < ⌊perc 3 1 / 50⌋ :=
  (progress_block_reports 3 50 0 (by decide) initProg 1 r1 (by decide)).1

/-- C9: the log-scale transform satisfies
`transform v = 10 ^ ((v / 2^16) * 3.5)`, is strictly monotonic
increasing on `[0, 65535]` and maps 0 to 1. -/
theorem transform_spec :
    (∀ v : ℝ, transform v = (10 : ℝ) ^ ((v / 2 ^ 16) * 3.5)) ∧
    StrictMonoOn transform (Set.Icc (0 : ℝ) 65535) ∧
    transform 0 = 1 := by
  refine ⟨fun v => rfl, ?_, ?_⟩
  · intro a _ b _ hab
    unfold transform
    rw [Real.rpow_lt_rpow_left_iff (by norm_num : (1 : ℝ) < 10)]
    gcongr
  · unfold transform
    have h0 : ((0 : ℝ) / 2 ^ 16) * 3.5 = 0 := by norm_num
    rw [h0, Real.rpow_zero]

/-- Witness for C9: the transform is strictly increasing from 0 to 1
on the raw scale and `transform 0 = 1`. -/
theorem transform_spec_witness :
    transform 0 < transform 1 ∧ transform 0 = 1 :=
  ⟨transform_spec.2.1 (Set.mem_Icc.mpr ⟨le_refl 0, by norm_num⟩)
      (Set.mem_Icc.mpr ⟨by norm_num, by norm_num⟩) (by norm_num),
    transform_spec.2.2⟩

theorem parseRows_length : ∀ (n : ℕ) (bs : List ℕ), (parseRows n bs).length = n := by
  intro n
  induction n with
  | zero => intro bs; rfl
  | succ n ih => intro bs; simp [parseRows, ih]

theorem parseU16s_length (bs : List ℕ) : (parseU16s bs).length = bs.length / 2 := by
  match bs with
  | [] => rfl
  | [b] => simp [parseU16s]
  | b0 :: b1 :: rest =>
    have ih := parseU16s_length rest
    simp [parseU16s, ih]
    omega

theorem parseU16s_lt (bs : List ℕ) (hb : ∀ b ∈ bs, b < 256) :
    ∀ v ∈ parseU16s bs, v < 2 ^ 16 := by
  match bs with
  | [] => simp [parseU16s]
  | [b] => simp [parseU16s]
  | b0 :: b1 :: rest =>
    intro v hv
    simp only [parseU16s, List.mem_cons] at hv
    rcases hv with hv | hv
    · have h0 : b0 < 256 := hb b0 (by simp)
      have h1 : b1 < 256 := hb b1 (by simp)
      rw [hv]
      unfold leU16
      omega
    · exact parseU16s_lt rest (fun b hbm => hb b (by simp [hbm])) v hv

theorem parseU16s_enc_id (r : List ℕ) (hr : ∀ v ∈ r, v < 2 ^ 16) :
    parseU16s (r.flatMap leU16enc) = r := by
  induction r with
  | nil => rfl
  | cons v vs ih =>
    have hv : v < 2 ^ 16 := hr v (by simp)
    rw [List.flatMap_cons]
    show parseU16s (v % 256 :: v / 256 % 256 :: vs.flatMap leU16enc) = v :: vs
    rw [parseU16s]
    rw [ih (fun w hw => hr w (by simp [hw]))]
    congr 1
    unfold leU16
    omega

theorem enc_parseU16s_id (bs : List ℕ) (hb : ∀ b ∈ bs, b < 256)
    (he : bs.length % 2 = 0) : (parseU16s bs).flatMap leU16enc = bs := by
  match bs with
  | [] => rfl
  | [b] => simp at he
  | b0 :: b1 :: rest =>
    have h0 : b0 < 256 := hb b0 (by simp)
    have h1 : b1 < 256 := hb b1 (by simp)
    have he' : rest.length % 2 = 0 := by
      simp [List.length_cons] at he
      omega
    have ih := enc_parseU16s_id rest (fun b hbm => hb b (by simp [hbm])) he'
    simp only [parseU16s, List.flatMap_cons, ih]
    have e0 : (leU16 b0 b1) % 256 = b0 := by unfold leU16; omega
    have e1 : (leU16 b0 b1) / 256 % 256 = b1 := by unfold leU16; omega
    simp [leU16enc, e0, e1]

theorem le32enc_le32 (b0 b1 b2 b3 : ℕ) (h0 : b0 < 256) (h1 : b1 < 256)
    (h2 : b2 < 256) (h3 : b3 < 256) :
    le32enc (le32 [b0, b1, b2, b3]) = [b0, b1, b2, b3] := by
  unfold le32 le32enc
  norm_num [List.getD]
  refine ⟨?_, ?_, ?_, ?_⟩ <;> omega

theorem le32_le32enc (v : ℕ) (hv : v < 2 ^ 32) : le32 (le32enc v) = v := by
  unfold le32 le32enc
  norm_num [List.getD]
  omega

theorem le32_lt (b : List ℕ) (hb : ∀ y ∈ b, y < 256) : le32 b < 2 ^ 32 := by
  have g : ∀ i, b.getD i 0 < 256 := by
    intro i
    rcases h : b[i]? with _ | y
    · rw [List.getD_eq_getElem?_getD, h]
      simp
    · rw [List.getD_eq_getElem?_getD, h]
      simpa using hb y (List.getElem?_mem h)
  have g0 := g 0
  have g1 := g 1
  have g2 := g 2
  have g3 := g 3
  have e2 : (256 : ℕ) ^ 2 = 65536 := by norm_num
  have e3 : (256 : ℕ) ^ 3 = 16777216 := by norm_num
  have e32 : (2 : ℕ) ^ 32 = 4294967296 := by norm_num
  unfold le32
  rw [e2, e3, e32]
  omega


theorem parseRows_shape : ∀ (n : ℕ) (bs : List ℕ), 24 * n ≤ bs.length →
    (∀ b ∈ bs, b < 256) →
    ∀ r ∈ parseRows n bs, r.length = 10 ∧ ∀ v ∈ r, v < 2 ^ 16 := by
  intro n
  induction n with
  | zero =>
    intro bs _ _ r hr
    rw [show parseRows 0 bs = [] from rfl] at hr
    exact absurd hr (by simp)
  | succ n ih =>
    intro bs hlen hb r hr
    simp only [parseRows, List.mem_cons] at hr
    rcases hr with hr | hr
    · subst hr
      constructor
      · rw [List.length_drop, parseU16s_length, List.length_take]
        omega
      · intro v hv
        have hv' : v ∈ parseU16s (bs.take 24) := List.mem_of_mem_drop hv
        exact parseU16s_lt _ (fun b hbm => hb b (List.mem_of_mem_take hbm)) v hv'
    · refine ih (bs.drop 24) ?_ (fun b hbm => hb b (List.mem_of_mem_drop hbm)) r hr
      rw [List.length_drop]
      omega

theorem read_evt_ok_elim (x : List ℕ) (n : ℕ) (rows : List (List ℕ))
    (h : read_evt x = .ok (n, rows)) :
    4 ≤ x.length ∧ n = le32 (x.take 4) ∧ 0 < n ∧
      n * 12 * 2 ≤ x.length - 4 ∧
      rows = parseRows n ((x.drop 4).take (n * 12 * 2)) := by
  simp only [read_evt] at h
  split at h
  · exact absurd h (by simp)
  · split at h
    · exact absurd h (by simp)
    · split at h
      · exact absurd h (by simp)
      · split at h
        · exact absurd h (by simp)
        · next h1 h2 h3 h4 =>
            injection h with h'
            injection h' with hn hr
            have hx4 : 4 ≤ x.length := by
              rw [List.length_take] at h2
              omega
            have hexp : le32 (x.take 4) * 12 * 2 ≤ x.length - 4 := by
              rw [List.length_take, List.length_drop] at h4
              omega
            subst hn
            exact ⟨hx4, rfl, by omega, hexp, hr.symm⟩

theorem read_evt_ok_of (x : List ℕ) (h4 : 4 ≤ x.length)
    (hn : 0 < le32 (x.take 4))
    (hb : le32 (x.take 4) * 12 * 2 ≤ x.length - 4) :
    read_evt x = .ok (le32 (x.take 4),
      parseRows (le32 (x.take 4))
        ((x.drop 4).take (le32 (x.take 4) * 12 * 2))) := by
  have l1 : (x.take 4).length = 4 := by
    rw [List.length_take]
    omega
  simp only [read_evt]
  rw [if_neg (by omega), if_neg (by omega),
    if_neg (by omega), if_neg ?_]
  rw [List.length_take, List.length_drop]
  omega


theorem flatMapEnc_length (r : List ℕ) :
    (r.flatMap leU16enc).length = 2 * r.length := by
  induction r with
  | nil => rfl
  | cons v vs ih =>
    rw [List.flatMap_cons, List.length_append, ih]
    show 2 + 2 * vs.length = 2 * (vs.length + 1)
    omega

theorem encBody_length (S : List (List ℕ)) (h10 : ∀ r ∈ S, r.length = 10) :
    (S.flatMap (fun r => leU16enc 10 ++ leU16enc 0 ++ r.flatMap leU16enc)).length
      = 24 * S.length := by
  induction S with
  | nil => rfl
  | cons r rs ih =>
    rw [List.flatMap_cons, List.length_append, List.length_append,
      List.length_append, flatMapEnc_length, h10 r (by simp),
      ih (fun q hq => h10 q (by simp [hq]))]
    show 2 + 2 + 2 * 10 + 24 * rs.length = 24 * (rs.length + 1)
    omega

theorem parseRows_encBody (S : List (List ℕ))
    (hS : ∀ r ∈ S, r.length = 10 ∧ ∀ v ∈ r, v < 2 ^ 16) :
    parseRows S.length
      (S.flatMap (fun r => leU16enc 10 ++ leU16enc 0 ++ r.flatMap leU16enc))
      = S := by
  induction S with
  | nil => rfl
  | cons r rs ih =>
    rw [List.flatMap_cons]
    show parseRows (rs.length + 1)
      ((leU16enc 10 ++ leU16enc 0 ++ r.flatMap leU16enc) ++
        rs.flatMap (fun q => leU16enc 10 ++ leU16enc 0 ++ q.flatMap leU16enc))
      = r :: rs
    have hlen : (leU16enc 10 ++ leU16enc 0 ++ r.flatMap leU16enc).length = 24 := by
      rw [List.length_append, List.length_append, flatMapEnc_length,
        (hS r (by simp)).1]
      rfl
    rw [parseRows]
    have htake : ((leU16enc 10 ++ leU16enc 0 ++ r.flatMap leU16enc) ++
        rs.flatMap (fun q => leU16enc 10 ++ leU16enc 0 ++ q.flatMap leU16enc)).take 24
        = leU16enc 10 ++ leU16enc 0 ++ r.flatMap leU16enc := by
      rw [← hlen, List.take_left]
    have hdrop : ((leU16enc 10 ++ leU16enc 0 ++ r.flatMap leU16enc) ++
        rs.flatMap (fun q => leU16enc 10 ++ leU16enc 0 ++ q.flatMap leU16enc)).drop 24
        = rs.flatMap (fun q => leU16enc 10 ++ leU16enc 0 ++ q.flatMap leU16enc) := by
      rw [← hlen, List.drop_left]
    rw [htake, hdrop, ih (fun q hq => hS q (by simp [hq]))]
    congr 1
    show (parseU16s (10 % 256 :: 10 / 256 % 256 :: 0 % 256 :: 0 / 256 % 256 ::
      r.flatMap leU16enc)).drop 2 = r
    rw [parseU16s, parseU16s]
    show parseU16s (r.flatMap leU16enc) = r
    exact parseU16s_enc_id r (hS r (by simp)).2


theorem le32enc_le32_list (b : List ℕ) (hl : b.length = 4)
    (hb : ∀ y ∈ b, y < 256) : le32enc (le32 b) = b := by
  match b with
  | [b0, b1, b2, b3] =>
    exact le32enc_le32 b0 b1 b2 b3 (hb b0 (by simp)) (hb b1 (by simp))
      (hb b2 (by simp)) (hb b3 (by simp))

theorem encdec_rows : ∀ (n : ℕ) (body : List ℕ),
    (∀ b ∈ body, b < 256) → body.length = n * 24 →
    (∀ i, i < n → (body.drop (24 * i)).take 4 = [10, 0, 0, 0]) →
    (parseRows n body).flatMap
      (fun r => leU16enc 10 ++ leU16enc 0 ++ r.flatMap leU16enc) = body := by
  intro n
  induction n with
  | zero =>
    intro body _ hlen _
    have hb0 : body = [] := List.length_eq_zero.mp (by omega)
    subst hb0
    rfl
  | succ n ih =>
    intro body hb hlen hpad
    have hb4 : body.take 4 = [10, 0, 0, 0] := by
      have := hpad 0 (by omega)
      simpa using this
    have hsplit : body = [10, 0, 0, 0] ++ body.drop 4 := by
      conv_lhs => rw [← List.take_append_drop 4 body, hb4]
    have hrest_len : (body.drop 4).length = n * 24 + 20 := by
      rw [List.length_drop]
      omega
    rw [parseRows]
    rw [List.flatMap_cons]
    have htake24 : body.take 24 = [10, 0, 0, 0] ++ (body.drop 4).take 20 := by
      conv_lhs => rw [hsplit]
      rw [List.take_append_eq_append_take]
      rfl
    have hdrop24 : body.drop 24 = (body.drop 4).drop 20 := by
      conv_lhs => rw [hsplit]
      rw [List.drop_append_eq_append_drop]
      rfl
    have hrow : (parseU16s (body.take 24)).drop 2 = parseU16s ((body.drop 4).take 20) := by
      rw [htake24]
      show (parseU16s (10 :: 0 :: 0 :: 0 :: (body.drop 4).take 20)).drop 2 =
        parseU16s ((body.drop 4).take 20)
      rw [parseU16s, parseU16s]
      rfl
    have henc : (parseU16s ((body.drop 4).take 20)).flatMap leU16enc =
        (body.drop 4).take 20 := by
      refine enc_parseU16s_id _ ?_ ?_
      · exact fun b hbm =>
          hb b (List.mem_of_mem_drop (List.mem_of_mem_take hbm))
      · rw [List.length_take]
        omega
    have hpad' : ∀ i, i < n → ((body.drop 24).drop (24 * i)).take 4 = [10, 0, 0, 0] := by
      intro i hi
      rw [List.drop_drop]
      have harith : 24 + 24 * i = 24 * (i + 1) := by ring
      rw [harith]
      exact hpad (i + 1) (by omega)
    have hrec := ih (body.drop 24)
      (fun b hbm => hb b (List.mem_of_mem_drop hbm))
      (by rw [List.length_drop]; omega) hpad'
    rw [hrow, hrec, henc]
    calc ([10, 0, 0, 0] ++ (body.drop 4).take 20 : List ℕ) ++ body.drop 24
        = body.take 24 ++ body.drop 24 := by rw [htake24]
    _ = body := List.take_append_drop 24 body


theorem parseRows_rowlen : ∀ (n : ℕ) (bs : List ℕ), 24 * n ≤ bs.length →
    ∀ r ∈ parseRows n bs, r.length = 10 := by
  intro n
  induction n with
  | zero =>
    intro bs _ r hr
    rw [show parseRows 0 bs = [] from rfl] at hr
    exact absurd hr (by simp)
  | succ n ih =>
    intro bs hlen r hr
    simp only [parseRows, List.mem_cons] at hr
    rcases hr with hr | hr
    · subst hr
      rw [List.length_drop, parseU16s_length, List.length_take]
      omega
    · refine ih (bs.drop 24) ?_ r hr
      rw [List.length_drop]
      omega

/-- C4 (amended): decode fails exactly when the input is empty, or
fewer than 4 bytes are available for the header, or the header count is
zero, or the remaining byte length is LESS than `count * 12 * 2`
(extra trailing bytes beyond the expected count are silently ignored);
in the insufficient-bytes case the error message cites the expected and
actual byte counts, and on success the result has `count` rows of 10
channel values with the two padding values dropped. -/
theorem read_evt_error_conditions (x : List ℕ) :
    ((read_evt x).isOk = true ↔
      (4 ≤ x.length ∧ 0 < le32 (x.take 4) ∧
        le32 (x.take 4) * 12 * 2 ≤ x.length - 4)) ∧
    (∀ n rows, read_evt x = .ok (n, rows) →
      n = le32 (x.take 4) ∧ rows.length = n ∧ ∀ r ∈ rows, r.length = 10) ∧
    (4 ≤ x.length → 0 < le32 (x.take 4) →
      x.length - 4 < le32 (x.take 4) * 12 * 2 →
      read_evt x =
        .error ("File has incorrect number of data bytes. Expected " ++
          toString (le32 (x.take 4) * 12 * 2) ++ ", saw " ++
          toString (x.length - 4))) := by
  refine ⟨⟨?_, ?_⟩, ?_, ?_⟩
  · intro hok
    cases hr : read_evt x with
    | ok p =>
      obtain ⟨n, rows⟩ := p
      obtain ⟨h1, h2, h3, h4, _⟩ := read_evt_ok_elim x n rows hr
      subst h2
      exact ⟨h1, h3, h4⟩
    | error e =>
      rw [hr] at hok
      exact absurd hok (by simp [Except.isOk, Except.toBool])
  · rintro ⟨h1, h2, h3⟩
    rw [read_evt_ok_of x h1 h2 h3]
    rfl
  · intro n rows h
    obtain ⟨h1, h2, h3, h4, h5⟩ := read_evt_ok_elim x n rows h
    refine ⟨h2, ?_, ?_⟩
    · rw [h5]
      exact parseRows_length n _
    · rw [h5]
      refine parseRows_rowlen n _ ?_
      rw [List.length_take, List.length_drop]
      omega
  · intro h1 h2 h3
    have hblen : ((x.drop 4).take (le32 (x.take 4) * 12 * 2)).length =
        x.length - 4 := by
      rw [List.length_take, List.length_drop]
      omega
    have l1 : (x.take 4).length = 4 := by
      rw [List.length_take]
      omega
    simp only [read_evt]
    rw [if_neg (by omega), if_neg (by omega), if_neg (by omega),
      if_pos (by rw [hblen]; omega), hblen]


/-- C3 (amended): encoding a retained subset emits a 4-byte count
header equal to the retained count followed by, per retained row in
order, the padding words (10, 0) and the 10 channel values as
little-endian unsigned 16-bit integers, and decoding the encoded bytes
returns exactly the retained rows; the encoded bytes equal the original
input bit-exact when the subset is all rows, PROVIDED the input is in
canonical form: its rows carry padding words (10, 0) and it has no
trailing bytes beyond the expected `4 + count * 24`. -/
theorem write_read_roundtrip (x : List ℕ) (n : ℕ) (rows : List (List ℕ))
    (hbytes : ∀ b ∈ x, b < 256)
    (hdec : read_evt x = .ok (n, rows))
    (hlen : x.length = 4 + n * 12 * 2)
    (hpad : ∀ i, i < n → ((x.drop 4).drop (24 * i)).take 4 = [10, 0, 0, 0]) :
    write_opp_binary rows = x ∧
    (write_opp_binary rows).take 4 = le32enc rows.length ∧
    (∀ S, S.Sublist rows → S ≠ [] →
      read_evt (write_opp_binary S) = .ok (S.length, S)) := by
  obtain ⟨h4, hn, hpos, hexp, hrows⟩ := read_evt_ok_elim x n rows hdec
  have hdlen : (x.drop 4).length = n * 12 * 2 := by
    rw [List.length_drop]
    omega
  have hbody : (x.drop 4).take (n * 12 * 2) = x.drop 4 :=
    List.take_of_length_le (by omega)
  rw [hbody] at hrows
  have hbb : ∀ b ∈ x.drop 4, b < 256 :=
    fun b hbm => hbytes b (List.mem_of_mem_drop hbm)
  have hshape := parseRows_shape n (x.drop 4) (by omega) hbb
  have henc := encdec_rows n (x.drop 4) hbb (by omega) hpad
  have hn32 : n < 2 ^ 32 := by
    rw [hn]
    exact le32_lt (x.take 4) (fun y hy => hbytes y (List.mem_of_mem_take hy))
  subst hrows
  refine ⟨?_, ?_, ?_⟩
  · unfold write_opp_binary
    rw [parseRows_length, henc]
    have htk : le32enc n = x.take 4 := by
      rw [hn]
      exact le32enc_le32_list (x.take 4) (by rw [List.length_take]; omega)
        (fun y hy => hbytes y (List.mem_of_mem_take hy))
    rw [htk, List.take_append_drop]
  · unfold write_opp_binary
    rw [show (4 : ℕ) =
      (le32enc (parseRows n (x.drop 4)).length).length from rfl]
    exact List.take_left _ _
  · intro S hS hne
    have hSshape : ∀ r ∈ S, r.length = 10 ∧ ∀ v ∈ r, v < 2 ^ 16 :=
      fun r hr => hshape r (hS.subset hr)
    have h10 : ∀ r ∈ S, r.length = 10 := fun r hr => (hSshape r hr).1
    have hSlen : S.length < 2 ^ 32 :=
      lt_of_le_of_lt
        (le_trans hS.length_le (le_of_eq (parseRows_length n _))) hn32
    have hSpos : 0 < S.length := List.length_pos.mpr hne
    have hblen :
        (S.flatMap (fun r => leU16enc 10 ++ leU16enc 0 ++
          r.flatMap leU16enc)).length = 24 * S.length :=
      encBody_length S h10
    unfold write_opp_binary
    have htk4 : ((le32enc S.length ++ S.flatMap
        (fun r => leU16enc 10 ++ leU16enc 0 ++ r.flatMap leU16enc)).take 4) =
        le32enc S.length := by
      rw [show (4 : ℕ) = (le32enc S.length).length from rfl]
      exact List.take_left _ _
    have hdr4 : ((le32enc S.length ++ S.flatMap
        (fun r => leU16enc 10 ++ leU16enc 0 ++ r.flatMap leU16enc)).drop 4) =
        S.flatMap (fun r => leU16enc 10 ++ leU16enc 0 ++ r.flatMap leU16enc) := by
      rw [show (4 : ℕ) = (le32enc S.length).length from rfl]
      exact List.drop_left _ _
    have hhead : le32 ((le32enc S.length ++ S.flatMap
        (fun r => leU16enc 10 ++ leU16enc 0 ++ r.flatMap leU16enc)).take 4) =
        S.length := by
      rw [htk4]
      exact le32_le32enc S.length hSlen
    have hylen : (le32enc S.length ++ S.flatMap
        (fun r => leU16enc 10 ++ leU16enc 0 ++
          r.flatMap leU16enc)).length = 4 + 24 * S.length := by
      rw [List.length_append, hblen]
      rfl
    have hres := read_evt_ok_of
      (le32enc S.length ++ S.flatMap
        (fun r => leU16enc 10 ++ leU16enc 0 ++ r.flatMap leU16enc))
      (by rw [hylen]; omega) (by rw [hhead]; omega)
      (by rw [hhead, hylen]; omega)
    rw [hres, hhead, hdr4]
    have htakeall : (S.flatMap (fun r => leU16enc 10 ++ leU16enc 0 ++
        r.flatMap leU16enc)).take (S.length * 12 * 2) =
        S.flatMap (fun r => leU16enc 10 ++ leU16enc 0 ++
          r.flatMap leU16enc) := by
      refine List.take_of_length_le ?_
      rw [hblen]
      omega
    rw [htakeall, parseRows_encBody S hSshape]


/-- Witness for C4 (amended): header count 3 with body bytes for only
2 rows fails with the FormatError citing expected 72 and actual 48
bytes. -/
theorem read_evt_error_conditions_witness :
    read_evt xW4 =
      .error ("File has incorrect number of data bytes. Expected " ++
        toString (le32 (xW4.take 4) * 12 * 2) ++ ", saw " ++
        toString (xW4.length - 4)) :=
  (read_evt_error_conditions xW4).2.2 (by decide) (by decide) (by decide)

/-- C4 counterexample: a byte string whose remaining length (25) is not
exactly `count * 12 * 2` (24) that decode nevertheless accepts — the
claim's "exactly" characterisation fails for surplus bytes. -/
theorem read_evt_trailing_bytes_cex :
    (read_evt xC4).isOk = true ∧
      xC4.length - 4 ≠ le32 (xC4.take 4) * 12 * 2 := by decide

/-- Witness for C3 (amended): on the canonical one-row input `xW3`,
re-encoding the decoded rows reproduces the bytes bit-exact. -/
theorem write_read_roundtrip_witness :
    write_opp_binary [List.replicate 10 7] = xW3 :=
  (write_read_roundtrip xW3 1 [List.replicate 10 7] (by decide) (by decide)
    (by decide) (by decide)).1

/-- C3 counterexample: a byte string decode accepts whose single row
carries padding words (0, 0); re-encoding the full retained set yields
different bytes (the encoder always writes (10, 0)), so the bit-exact
round-trip claim fails as stated. -/
theorem write_opp_binary_padding_cex :
    read_evt xC3 = .ok (1, [List.replicate 10 0]) ∧
      write_opp_binary [List.replicate 10 0] ≠ xC3 := by decide

end Seaflow
